import Mathlib

/-!
# Verification of the `terifi` expiry-window core

Shallow embedding of the date/strike parsing, expiry grouping, window
calculation and batched-fetch orchestration of the `terifi` repository
(`market_utils.py`, `analyze_catalog.py`, `greeks.py`,
`implied_volatility.py`), together with theorems settling the spec's
testable properties.

Python strings are modelled as `List Char`; timestamps as integers
(seconds, the naive-`datetime` arithmetic of the source never involves
time zones or DST); `None` as `Option.none`; a raised-and-swallowed
exception as the `none`/`false` branch of a total function.
-/

/-- `[0-9]` of the regex `-([0-9]+[A-Z]{3}[0-9]{2})-` (`market_utils.py:22`). -/
def isDigitChar (c : Char) : Bool := 48 ≤ c.toNat && c.toNat ≤ 57

/-- `[A-Z]` of the regex `-([0-9]+[A-Z]{3}[0-9]{2})-` (`market_utils.py:22`). -/
def isUpperAlpha (c : Char) : Bool := 65 ≤ c.toNat && c.toNat ≤ 90

/-- One attempt of the regex engine at a fixed position: having just seen a
`'-'`, try to match `[0-9]+[A-Z]{3}[0-9]{2}-` on the remaining input and
return the parenthesised group.  Because the three letters must follow the
digits immediately, the `[0-9]+` can only consume the entire maximal digit
run, so the backtracking regex semantics collapse to this deterministic
reading. -/
def matchAfterHyphen (l : List Char) : Option (List Char) :=
  let ds := l.takeWhile isDigitChar
  match ds, l.drop ds.length with
  | [], _ => none
  | _ :: _, a :: b :: c :: d :: e :: f :: _ =>
    if isUpperAlpha a && isUpperAlpha b && isUpperAlpha c &&
        isDigitChar d && isDigitChar e && f = '-' then
      some (ds ++ [a, b, c, d, e])
    else none
  | _ :: _, _ => none

/-- `re.search(r'-([0-9]+[A-Z]{3}[0-9]{2})-', market_name)`
(`market_utils.py:22`): scan left to right, and at each `'-'` try to
complete a match; return the first group found (`None` when there is
none). -/
def reSearchDate : List Char → Option (List Char)
  | [] => none
  | ch :: rest =>
    if ch = '-' then
      match matchAfterHyphen rest with
      | some g => some g
      | none => reSearchDate rest
    else reSearchDate rest

/-- The fixed 12-entry `month_map` dictionary (`market_utils.py:29-33`). -/
def month_map : List (List Char × List Char) :=
  [("JAN".toList, "01".toList), ("FEB".toList, "02".toList),
   ("MAR".toList, "03".toList), ("APR".toList, "04".toList),
   ("MAY".toList, "05".toList), ("JUN".toList, "06".toList),
   ("JUL".toList, "07".toList), ("AUG".toList, "08".toList),
   ("SEP".toList, "09".toList), ("OCT".toList, "10".toList),
   ("NOV".toList, "11".toList), ("DEC".toList, "12".toList)]

/-- `month_map[month_abbr]` guarded by `month_abbr in month_map`
(`market_utils.py:39-40`). -/
def monthLookup (m : List Char) : Option (List Char) :=
  (month_map.find? (fun p => p.1 == m)).map Prod.snd

/-- `market_utils.extract_expiration_date` (`market_utils.py:14-45`):
find the date token, slice it at fixed offsets (`[:2]`, `[2:5]`, `[5:7]`),
map the month abbreviation through `month_map`, and format
`f"{year}-{month}-{day}"` with `year = '20' + date_str[5:7]`.  The
`try/except` of the source cannot fire on a string input (slicing never
raises), and is modelled by totality: every failure path yields `none`. -/
def extract_expiration_date (market_name : List Char) : Option (List Char) :=
  match reSearchDate market_name with
  | none => none
  | some date_str =>
    let day := date_str.take 2
    let month_abbr := (date_str.drop 2).take 3
    let year := ['2', '0'] ++ (date_str.drop 5).take 2
    match monthLookup month_abbr with
    | some month => some (year ++ '-' :: (month ++ '-' :: day))
    | none => none

/-- Python's `float(s)` on the inputs this code can meet, returning the exact
numeric value as a rational: optional sign, then digits with an optional
decimal point (at least one digit overall), then an optional exponent part.
Special forms (`inf`, `nan`, underscores, surrounding whitespace) are not
modelled; none of them can be a field of a market identifier.  `none` models
the `ValueError` the source catches (`analyze_catalog.py:55,58`). -/
def pyFloat? (l : List Char) : Option ℚ :=
  let signAndRest : ℚ × List Char :=
    match l with
    | '+' :: r => (1, r)
    | '-' :: r => (-1, r)
    | r => (1, r)
  let sgn := signAndRest.1
  let l1 := signAndRest.2
  let ip := l1.takeWhile isDigitChar
  let l2 := l1.drop ip.length
  let fracAndRest : List Char × List Char :=
    match l2 with
    | '.' :: r => (r.takeWhile isDigitChar, r.drop (r.takeWhile isDigitChar).length)
    | r => ([], r)
  let fp := fracAndRest.1
  let l3 := fracAndRest.2
  if ip.isEmpty && fp.isEmpty then none
  else
    let digitVal : Char → ℕ := fun c => c.toNat - 48
    let natOfDigits : List Char → ℕ := fun ds => ds.foldl (fun a c => a * 10 + digitVal c) 0
    let mant : ℚ := (natOfDigits ip : ℚ) + (natOfDigits fp : ℚ) / ((10 : ℚ) ^ fp.length)
    match l3 with
    | [] => some (sgn * mant)
    | 'e' :: r | 'E' :: r =>
      let esignAndRest : ℤ × List Char :=
        match r with
        | '+' :: t => (1, t)
        | '-' :: t => (-1, t)
        | t => (1, t)
      let ed := esignAndRest.2.takeWhile isDigitChar
      if ed.isEmpty || !(esignAndRest.2.drop ed.length).isEmpty then none
      else some (sgn * mant * (10 : ℚ) ^ (esignAndRest.1 * (natOfDigits ed : ℕ)))
    | _ => none

/-- `analyze_catalog.extract_strike_and_type` (`analyze_catalog.py:47-63`):
split on `'-'`; with at least 6 fields, try `float(parts[4])` as the strike
and take `parts[5]` as the option type; on `ValueError` return
`(None, parts[5] if len(parts) > 5 else None)`; with fewer than 6 fields
return `(None, None)`.  The outer `try/except` cannot fire on a string
input and is modelled by totality. -/
def extract_strike_and_type (market_name : List Char) :
    Option ℚ × Option (List Char) :=
  let parts := market_name.splitOn '-'
  if 6 ≤ parts.length then
    match pyFloat? (parts.getD 4 []) with
    | some strike => (some strike, some (parts.getD 5 []))
    | none => (none, if 5 < parts.length then some (parts.getD 5 []) else none)
  else (none, none)

/-- A row of the catalog `DataFrame` after `get_markets_with_expiry`
(`market_utils.py:47-89`): the market identifier and its derived
`expiration_date`, a naive timestamp modelled as seconds. -/
structure CatalogEntry where
  market : String
  expiration_date : ℤ
deriving DecidableEq, Repr

/-- `filtered_catalog['expiration_date'].dt.date` (`market_utils.py:111`):
the calendar date of a timestamp, as a day number (floor division, which is
what pandas' `.dt.date` does). -/
def dateOf (t : ℤ) : ℤ := Int.fdiv t 86400

/-- `market_utils.fetch_markets_by_expiry_date` (`market_utils.py:91-115`):
keep entries with `start_date <= expiration_date <= end_date`, then group
by the calendar date of the expiry.  `DataFrame.groupby` sorts its keys
ascending and keeps the frame order inside each group, so the result is
the sorted list of distinct in-range expiry dates, each paired with the
markets carrying that date in catalog order. -/
def fetch_markets_by_expiry_date (catalog : List CatalogEntry)
    (start_date end_date : ℤ) : List (ℤ × List String) :=
  let filtered_catalog := catalog.filter
    (fun x => decide (start_date ≤ x.expiration_date ∧ x.expiration_date ≤ end_date))
  let dates := ((filtered_catalog.map (fun x => dateOf x.expiration_date)).dedup).insertionSort (· ≤ ·)
  dates.map (fun d =>
    (d, (filtered_catalog.filter (fun x => decide (dateOf x.expiration_date = d))).map
          (fun x => x.market)))

/-- `market_utils.calculate_data_period_for_expiry` (`market_utils.py:117-136`):
`end = datetime.combine(expiry_date, datetime.min.time())` (midnight of the
expiry date), `start = end - timedelta(days=days_before_expiry)`.  The expiry
date is a day number; naive-`datetime` arithmetic is exact seconds
arithmetic, and a `timedelta` day is exactly 86400 seconds. -/
def calculate_data_period_for_expiry (expiry_date : ℤ)
    (days_before_expiry : ℕ := 22) : ℤ × ℤ :=
  let expiry_datetime := expiry_date * 86400
  let start_time := expiry_datetime - (days_before_expiry : ℤ) * 86400
  let end_time := expiry_datetime
  (start_time, end_time)

/-- The external fetch/export collaborator (`client.get_market_greeks(...)
.parallel().export_to_csv_files()`, `greeks.py:35-41`, and the analogous
implied-volatility call): it receives the market list and the window and
either succeeds or raises, which we model as `Except`. -/
def FetchFn : Type := List String → ℤ → ℤ → Except String Unit

/-- `greeks.fetch_greeks_for_expiry` (`greeks.py:14-48`): compute the window
for the expiry date, invoke the collaborator, and convert success to `True`
and any raised exception to `False` (the `try/except Exception` around the
call).  `page_size` and `granularity` only parametrise the collaborator and
are absorbed into `fetch`. -/
def fetch_greeks_for_expiry (fetch : FetchFn) (markets : List String)
    (expiry_date : ℤ) (days_before_expiry : ℕ := 22) : Bool :=
  let w := calculate_data_period_for_expiry expiry_date days_before_expiry
  match fetch markets w.1 w.2 with
  | Except.ok _ => true
  | Except.error _ => false

/-- `MAX_CONCURRENT_TASKS` (`greeks.py:96`, `implied_volatility.py:93`). -/
def MAX_CONCURRENT_TASKS : ℕ := 5

/-- The batching loop of `save_greeks_data` (`greeks.py:99-108`) and
`save_implied_volatility_data` (`implied_volatility.py:96-105`):
`for i in range(0, len(tasks), 5)` slices `tasks[i:i+5]`, `gather`s the
slice, appends its results, and sleeps iff `i + 5 < len(tasks)` — that is,
iff tasks remain after the slice.  Rendered as structural recursion with the
source's hard-coded cap of `MAX_CONCURRENT_TASKS = 5`: a step either
consumes the whole remainder (final batch, no sleep) or splits off exactly
five tasks and sleeps once.  Returns the list of batches in order and the
number of `asyncio.sleep(2)` calls. -/
def batchLoop {α : Type} : List α → List (List α) × ℕ
  | [] => ([], 0)
  | [a] => ([[a]], 0)
  | [a, b] => ([[a, b]], 0)
  | [a, b, c] => ([[a, b, c]], 0)
  | [a, b, c, d] => ([[a, b, c, d]], 0)
  | [a, b, c, d, e] => ([[a, b, c, d, e]], 0)
  | a :: b :: c :: d :: e :: f :: rest =>
    let r := batchLoop (f :: rest)
    ([a, b, c, d, e] :: r.1, r.2 + 1)

/-- `greeks.save_greeks_data` (`greeks.py:51-111`), from the point where the
expiry groups are in hand (the catalog acquisition upstream of it is the
excluded external collaborator).  With no groups it takes the early
`return None`; otherwise it builds one task per group in mapping order,
runs the batching loop, counts `results.count(True)` into `successful`,
prints the summary, and falls off the end — returning `None`.  The first
component models the Python return value; the second models the reported
`successful` count (`none` when the early return skips the loop). -/
def save_greeks_data (fetch : FetchFn)
    (grouped_markets : List (ℤ × List String)) (days_before_expiry : ℕ := 22) :
    Option ℕ × Option ℕ :=
  if grouped_markets.isEmpty then (none, none)
  else
    let tasks := grouped_markets.map
      (fun g => fetch_greeks_for_expiry fetch g.2 g.1 days_before_expiry)
    let results := (batchLoop tasks).1.flatten
    let successful := results.count true
    (none, some successful)

/-- `implied_volatility.fetch_iv_for_expiry` (`implied_volatility.py:16-48`):
identical to `fetch_greeks_for_expiry` up to the collaborator invoked. -/
def fetch_iv_for_expiry (fetch : FetchFn) (markets : List String)
    (expiry_date : ℤ) (days_before_expiry : ℕ := 22) : Bool :=
  let w := calculate_data_period_for_expiry expiry_date days_before_expiry
  match fetch markets w.1 w.2 with
  | Except.ok _ => true
  | Except.error _ => false

/-- `implied_volatility.save_implied_volatility_data`
(`implied_volatility.py:51-108`): identical orchestration to
`save_greeks_data` up to the collaborator invoked. -/
def save_implied_volatility_data (fetch : FetchFn)
    (grouped_markets : List (ℤ × List String)) (days_before_expiry : ℕ := 22) :
    Option ℕ × Option ℕ :=
  if grouped_markets.isEmpty then (none, none)
  else
    let tasks := grouped_markets.map
      (fun g => fetch_iv_for_expiry fetch g.2 g.1 days_before_expiry)
    let results := (batchLoop tasks).1.flatten
    let successful := results.count true
    (none, some successful)

/-- The batch sizes produced by the loop depend only on the number of tasks:
`n` tasks are cut into full batches of five and a final batch of the
remainder (used to reason about `batchLoop`). -/
def chunkLens : ℕ → List ℕ
  | 0 => []
  | 1 => [1]
  | 2 => [2]
  | 3 => [3]
  | 4 => [4]
  | 5 => [5]
  | n + 6 => 5 :: chunkLens (n + 1)

/-- The shape `<digits><3 uppercase letters><2 digits>` of a date token
(declarative version of the regex group, used to state pattern absence). -/
def isDateToken (g : List Char) : Bool :=
  decide (6 ≤ g.length) &&
  (g.take (g.length - 5)).all isDigitChar &&
  (match g.drop (g.length - 5) with
   | [a, b, c, d, e] =>
     isUpperAlpha a && isUpperAlpha b && isUpperAlpha c &&
       isDigitChar d && isDigitChar e
   | _ => false)

/-- The input contains a hyphen-surrounded date token somewhere. -/
def hasDatePattern (l : List Char) : Prop :=
  ∃ pre grp suf, l = pre ++ '-' :: (grp ++ '-' :: suf) ∧ isDateToken grp = true

/-! ## Helper lemmas about the batching loop -/

theorem batchLoop_flatten {α : Type} (l : List α) : (batchLoop l).1.flatten = l := by
  induction l using batchLoop.induct <;> simp_all [batchLoop]

theorem batchLoop_sizes {α : Type} (l : List α) :
    ∀ b ∈ (batchLoop l).1, b.length ≤ 5 := by
  induction l using batchLoop.induct <;> simp_all [batchLoop]

theorem batchLoop_sleep_count {α : Type} (l : List α) (h : l ≠ []) :
    (batchLoop l).2 + 1 = (batchLoop l).1.length := by
  induction l using batchLoop.induct <;> simp_all [batchLoop]

theorem batchLoop_lengths {α : Type} (l : List α) :
    (batchLoop l).1.map List.length = chunkLens l.length := by
  induction l using batchLoop.induct <;> simp_all [batchLoop, chunkLens]

/-! ## Theorems settling the claims (with their helper lemmas) -/

/-- **C1** (code bug).  Evaluation of the two parsers at the example that the
spec and the source docstrings both use.  The expiry side is as specified,
but `extract_strike_and_type` splits
`deribit-BTC-10APR22-34000-C-option` into six fields in which the strike
`34000` sits at index 3 and the type `C` at index 4, while the code reads
indices 4 and 5; `float("C")` raises `ValueError`, so the code returns
`(None, "option")` instead of the documented `(34000.0, "C")`. -/
theorem strike_type_on_documented_example :
    extract_expiration_date ("deribit-BTC-10APR22-34000-C-option".toList)
      = some ("2022-04-10".toList)
    ∧ extract_strike_and_type ("deribit-BTC-10APR22-34000-C-option".toList)
      = (none, some ("option".toList))
    ∧ extract_strike_and_type ("deribit-BTC-10APR22-34000-C-option".toList)
      ≠ (some 34000, some ("C".toList)) := by
  refine ⟨by decide, by decide, ?_⟩
  intro h
  have h2 : extract_strike_and_type ("deribit-BTC-10APR22-34000-C-option".toList)
      = (none, some ("option".toList)) := by decide
  rw [h2] at h
  simp at h

/-- **C4**.  The fetch window is exactly `days_before_expiry` days long
(`86400` seconds per `timedelta` day), and the calculation is a pure
function of its inputs, so calling it twice with the same arguments gives
the same pair. -/
theorem calculate_data_period_exact_window (expiry_date : ℤ) (days_before_expiry : ℕ) :
    (calculate_data_period_for_expiry expiry_date days_before_expiry).2
        - (calculate_data_period_for_expiry expiry_date days_before_expiry).1
      = (days_before_expiry : ℤ) * 86400
    ∧ calculate_data_period_for_expiry expiry_date days_before_expiry
      = calculate_data_period_for_expiry expiry_date days_before_expiry := by
  refine ⟨?_, rfl⟩
  simp [calculate_data_period_for_expiry]

/-- **C9**.  With fewer than six hyphen-separated fields both results are
absent; with at least six fields and an unparseable field 4, the strike is
absent but the field-5 token is still returned. -/
theorem extract_strike_and_type_field_contract (market_name : List Char) :
    ((market_name.splitOn '-').length < 6 →
      extract_strike_and_type market_name = (none, none))
    ∧ (6 ≤ (market_name.splitOn '-').length →
      pyFloat? ((market_name.splitOn '-').getD 4 []) = none →
      extract_strike_and_type market_name
        = (none, some ((market_name.splitOn '-').getD 5 []))) := by
  constructor
  · intro h
    simp [extract_strike_and_type, Nat.not_le.mpr h]
  · intro h6 hf
    simp only [extract_strike_and_type, if_pos h6, hf]
    rw [if_pos (by omega)]

/-- Witness for C9 at concrete inputs: `"a-b"` has 2 fields; in
`"x-y-z-w-NOTANUM-T-opt"` field 4 is `"NOTANUM"` and field 5 is `"T"`. -/
theorem extract_strike_and_type_field_contract_witness :
    extract_strike_and_type ("a-b".toList) = (none, none)
    ∧ extract_strike_and_type ("x-y-z-w-NOTANUM-T-opt".toList)
      = (none, some ("T".toList)) := by
  constructor
  · exact (extract_strike_and_type_field_contract ("a-b".toList)).1 (by decide)
  · have h := (extract_strike_and_type_field_contract
      ("x-y-z-w-NOTANUM-T-opt".toList)).2 (by decide) (by decide)
    rw [h]; decide

/-- **C2** (counterexample).  On a non-empty one-group mapping whose fetch
succeeds, the reported `successful` count is 1, but the function's return
value is `None`, not the count: `save_greeks_data` (and likewise
`save_implied_volatility_data`) prints the count and falls off the end of
the function body. -/
theorem save_greeks_data_return_counterexample :
    (save_greeks_data (fun _ _ _ => Except.ok ()) [(20000, ["m"])] 22).2 = some 1
    ∧ (save_greeks_data (fun _ _ _ => Except.ok ()) [(20000, ["m"])] 22).1 = none
    ∧ (save_greeks_data (fun _ _ _ => Except.ok ()) [(20000, ["m"])] 22).1 ≠ some 1
    ∧ (save_implied_volatility_data (fun _ _ _ => Except.ok ()) [(20000, ["m"])] 22).1
      = none := by
  refine ⟨by decide, by decide, ?_, by decide⟩
  intro h
  have : (none : Option ℕ) = some 1 := by
    rw [← h]; decide
  cases this

/-- **C2** (amended).  For every non-empty grouping, both orchestrators
*report* (second component) the number of expiry-date groups whose fetch
task returned `True`, while their Python *return value* (first component)
is `None`. -/
theorem save_data_reports_not_returns_count (fetch : FetchFn)
    (grouped_markets : List (ℤ × List String)) (days_before_expiry : ℕ)
    (h : grouped_markets ≠ []) :
    (save_greeks_data fetch grouped_markets days_before_expiry).2
      = some (grouped_markets.countP
          (fun g => fetch_greeks_for_expiry fetch g.2 g.1 days_before_expiry))
    ∧ (save_greeks_data fetch grouped_markets days_before_expiry).1 = none
    ∧ (save_implied_volatility_data fetch grouped_markets days_before_expiry).2
      = some (grouped_markets.countP
          (fun g => fetch_iv_for_expiry fetch g.2 g.1 days_before_expiry))
    ∧ (save_implied_volatility_data fetch grouped_markets days_before_expiry).1
      = none := by
  have hne : grouped_markets.isEmpty = false := by
    simpa [List.isEmpty_iff] using h
  have hcount : ∀ (f : ℤ × List String → Bool),
      ((batchLoop (grouped_markets.map f)).1.flatten).count true
        = grouped_markets.countP f := by
    intro f
    rw [batchLoop_flatten, List.count, List.countP_map]
    refine List.countP_congr (fun g _ => ?_)
    cases hfg : f g <;> simp [hfg]
  refine ⟨?_, ?_, ?_, ?_⟩ <;>
    simp [save_greeks_data, save_implied_volatility_data, hne, hcount]

/-- Witness for the amended C2 at a concrete non-empty grouping. -/
theorem save_data_reports_not_returns_count_witness :
    (save_greeks_data (fun _ _ _ => Except.ok ()) [(0, ["m"]), (1, ["n"])] 22).2 = some 2
    ∧ (save_greeks_data (fun _ _ _ => Except.ok ()) [(0, ["m"]), (1, ["n"])] 22).1
      = none := by
  have h := save_data_reports_not_returns_count (fun _ _ _ => Except.ok ())
    [(0, ["m"]), (1, ["n"])] 22 (by decide)
  refine ⟨?_, h.2.1⟩
  rw [h.1]; decide

/-- **C5**.  The orchestrator cuts the ordered task list into consecutive
batches of at most five, sleeps exactly once between consecutive batches
and never after the last one (`sleeps + 1 = number of batches`), and for
12 tasks produces exactly the batches `5, 5, 2` with two sleeps. -/
theorem batching_schedule (tasks : List Bool) :
    (∀ b ∈ (batchLoop tasks).1, b.length ≤ 5)
    ∧ (batchLoop tasks).1.flatten = tasks
    ∧ (tasks ≠ [] → (batchLoop tasks).2 + 1 = (batchLoop tasks).1.length)
    ∧ (tasks.length = 12 →
        (batchLoop tasks).1.map List.length = [5, 5, 2]
        ∧ (batchLoop tasks).2 = 2) := by
  refine ⟨batchLoop_sizes tasks, batchLoop_flatten tasks,
    fun h => batchLoop_sleep_count tasks h, fun h12 => ⟨?_, ?_⟩⟩
  · rw [batchLoop_lengths, h12]; decide
  · have hne : tasks ≠ [] := by
      intro hnil; rw [hnil] at h12; simp at h12
    have hlen : (batchLoop tasks).1.length = 3 := by
      have hm := congrArg List.length (batchLoop_lengths tasks)
      rw [h12] at hm
      simpa using hm
    have hs := batchLoop_sleep_count tasks hne
    omega

/-- Witness for C5 at a concrete 12-task list. -/
theorem batching_schedule_witness :
    (batchLoop [true, true, false, true, true, true, false, true, true, true, true, false]).1.map
        List.length = [5, 5, 2]
    ∧ (batchLoop [true, true, false, true, true, true, false, true, true, true, true, false]).2
      = 2 :=
  (batching_schedule
    [true, true, false, true, true, true, false, true, true, true, true, false]).2.2.2
    (by decide)

/-- **C6**.  Every task's boolean outcome appears in the collected results,
in order (no failure aborts a sibling or the loop — the whole orchestration
is a total function); a task whose collaborator call raises yields `false`,
one whose call succeeds yields `true`; and the success count is the number
of groups whose collaborator call succeeds, regardless of the other
groups' failures. -/
theorem task_failure_isolation (grouped_markets : List (ℤ × List String))
    (fetch : FetchFn) (days_before_expiry : ℕ) :
    ((batchLoop (grouped_markets.map
        (fun g => fetch_greeks_for_expiry fetch g.2 g.1 days_before_expiry))).1.flatten
      = grouped_markets.map
          (fun g => fetch_greeks_for_expiry fetch g.2 g.1 days_before_expiry))
    ∧ (∀ g ∈ grouped_markets, ∀ msg,
        fetch g.2 (calculate_data_period_for_expiry g.1 days_before_expiry).1
            (calculate_data_period_for_expiry g.1 days_before_expiry).2
          = Except.error msg →
        fetch_greeks_for_expiry fetch g.2 g.1 days_before_expiry = false)
    ∧ (∀ g ∈ grouped_markets,
        fetch g.2 (calculate_data_period_for_expiry g.1 days_before_expiry).1
            (calculate_data_period_for_expiry g.1 days_before_expiry).2
          = Except.ok () →
        fetch_greeks_for_expiry fetch g.2 g.1 days_before_expiry = true)
    ∧ ((batchLoop (grouped_markets.map
          (fun g => fetch_greeks_for_expiry fetch g.2 g.1 days_before_expiry))).1.flatten).count
          true
        = grouped_markets.countP
            (fun g => fetch_greeks_for_expiry fetch g.2 g.1 days_before_expiry) := by
  refine ⟨batchLoop_flatten _, ?_, ?_, ?_⟩
  · intro g _ msg hmsg
    simp [fetch_greeks_for_expiry, hmsg]
  · intro g _ hok
    simp [fetch_greeks_for_expiry, hok]
  · rw [batchLoop_flatten, List.count, List.countP_map]
    refine List.countP_congr (fun g _ => ?_)
    cases hfg : fetch_greeks_for_expiry fetch g.2 g.1 days_before_expiry <;> simp [hfg]

/-- Witness for C6: a two-group batch in which the collaborator raises for
the first group and succeeds for the second; the failing group's task is
`false`, the sibling's is `true`. -/
theorem task_failure_isolation_witness :
    fetch_greeks_for_expiry
        (fun ms _ _ => if ms = ["a"] then Except.error "boom" else Except.ok ())
        ["a"] 0 22 = false
    ∧ fetch_greeks_for_expiry
        (fun ms _ _ => if ms = ["a"] then Except.error "boom" else Except.ok ())
        ["b"] 1 22 = true := by
  have h := task_failure_isolation [(0, ["a"]), (1, ["b"])]
    (fun ms _ _ => if ms = ["a"] then Except.error "boom" else Except.ok ()) 22
  exact ⟨h.2.1 (0, ["a"]) (by decide) "boom" (by simp),
    h.2.2.1 (1, ["b"]) (by decide) (by simp)⟩

/-! ## Helper lemmas about the date-token search -/

theorem not_digit_of_upper {c : Char} (h : isUpperAlpha c = true) :
    isDigitChar c = false := by
  simp only [isUpperAlpha, Bool.and_eq_true, decide_eq_true_eq] at h
  simp only [isDigitChar, Bool.and_eq_false_iff, decide_eq_false_iff_not]
  omega

theorem ne_hyphen_of_upper {c : Char} (h : isUpperAlpha c = true) : c ≠ '-' := by
  intro he
  subst he
  exact absurd h (by decide)

theorem mem_takeWhile_digit {l : List Char} {c : Char}
    (h : c ∈ l.takeWhile isDigitChar) : isDigitChar c = true := by
  induction l with
  | nil => simp [List.takeWhile] at h
  | cons x xs ih =>
    rw [List.takeWhile_cons] at h
    by_cases hx : isDigitChar x
    · rw [if_pos hx] at h
      rcases List.mem_cons.mp h with h1 | h2
      · rw [h1]; exact hx
      · exact ih h2
    · rw [if_neg hx] at h
      simp at h

theorem takeWhile_append_drop_self (p : Char → Bool) (l : List Char) :
    l.takeWhile p ++ l.drop (l.takeWhile p).length = l := by
  induction l with
  | nil => rfl
  | cons x xs ih =>
    rw [List.takeWhile_cons]
    by_cases hp : p x
    · simp [hp, ih]
    · simp [hp]

theorem takeWhile_digit_of_append {ds : List Char}
    (hds : ∀ c ∈ ds, isDigitChar c = true) {a : Char}
    (ha : isDigitChar a = false) (t : List Char) :
    (ds ++ a :: t).takeWhile isDigitChar = ds := by
  induction ds with
  | nil => simp [List.takeWhile_cons, ha]
  | cons x xs ih =>
    have hx := hds x (by simp)
    simp only [List.cons_append, List.takeWhile_cons, hx, if_pos]
    rw [ih (fun c hc => hds c (by simp [hc]))]

/-- A successful single-position attempt on a well-shaped tail. -/
theorem matchAfterHyphen_shape {ds : List Char} (hne : ds ≠ [])
    (hds : ∀ c ∈ ds, isDigitChar c = true) {a b c y1 y2 : Char}
    (ha : isUpperAlpha a = true) (hb : isUpperAlpha b = true)
    (hc : isUpperAlpha c = true) (hy1 : isDigitChar y1 = true)
    (hy2 : isDigitChar y2 = true) (rest : List Char) :
    matchAfterHyphen (ds ++ a :: b :: c :: y1 :: y2 :: '-' :: rest)
      = some (ds ++ [a, b, c, y1, y2]) := by
  have htw : (ds ++ a :: b :: c :: y1 :: y2 :: '-' :: rest).takeWhile isDigitChar = ds :=
    takeWhile_digit_of_append hds (not_digit_of_upper ha) _
  obtain ⟨x, xs, rfl⟩ := List.exists_cons_of_ne_nil hne
  simp only [matchAfterHyphen, htw, List.drop_left]
  simp [ha, hb, hc, hy1, hy2]

/-- A failed single-position attempt: the character after the hyphen is not
a digit, so `[0-9]+` cannot start. -/
theorem matchAfterHyphen_none_of_head {x : Char} (t : List Char)
    (h : isDigitChar x = false) : matchAfterHyphen (x :: t) = none := by
  simp only [matchAfterHyphen, List.takeWhile_cons, h]
  simp

/-- Scanning skips any hyphen-free prefix. -/
theorem reSearchDate_append {l : List Char} (r : List Char)
    (h : ∀ c ∈ l, c ≠ '-') : reSearchDate (l ++ r) = reSearchDate r := by
  induction l with
  | nil => rfl
  | cons x xs ih =>
    have hx : x ≠ '-' := h x (by simp)
    simp only [List.cons_append, reSearchDate, if_neg hx]
    exact ih (fun c hc => h c (by simp [hc]))

/-- The search on a well-formed market identifier
`<exch>-<asset>-<digits><AAA><dd>-<tail>` finds exactly the date token:
the scan skips the hyphen-free exchange field, the attempt at the hyphen
before the all-letter asset field fails (no leading digit), the scan skips
the asset field, and the attempt at the hyphen before the date token
succeeds. -/
theorem reSearchDate_wellformed (exch asset ds : List Char) {a b c y1 y2 : Char}
    (rest : List Char) (hexch : ∀ ch ∈ exch, ch ≠ '-')
    (hassetne : asset ≠ []) (hassetU : ∀ ch ∈ asset, isUpperAlpha ch = true)
    (hdsne : ds ≠ []) (hds : ∀ ch ∈ ds, isDigitChar ch = true)
    (ha : isUpperAlpha a = true) (hb : isUpperAlpha b = true)
    (hc : isUpperAlpha c = true) (hy1 : isDigitChar y1 = true)
    (hy2 : isDigitChar y2 = true) :
    reSearchDate
        (exch ++ '-' :: (asset ++ '-' :: (ds ++ a :: b :: c :: y1 :: y2 :: '-' :: rest)))
      = some (ds ++ [a, b, c, y1, y2]) := by
  rw [reSearchDate_append _ hexch]
  obtain ⟨x, xs, rfl⟩ := List.exists_cons_of_ne_nil hassetne
  have hxU := hassetU x (by simp)
  rw [reSearchDate, if_pos rfl, List.cons_append,
    matchAfterHyphen_none_of_head _ (not_digit_of_upper hxU)]
  rw [← List.cons_append,
    reSearchDate_append _ (fun ch hch => ne_hyphen_of_upper (hassetU ch hch))]
  rw [reSearchDate, if_pos rfl, matchAfterHyphen_shape hdsne hds ha hb hc hy1 hy2]

/-- Every key of `month_map` is three uppercase letters. -/
theorem monthLookup_key_upper {m x : List Char} (h : monthLookup m = some x) :
    m.length = 3 ∧ ∀ ch ∈ m, isUpperAlpha ch = true := by
  unfold monthLookup at h
  cases hf : month_map.find? (fun p => p.1 == m) with
  | none => rw [hf] at h; cases h
  | some p =>
    have hp := List.find?_some hf
    have hm : p.1 = m := by simpa using hp
    have hmem := List.mem_of_find?_eq_some hf
    have hkeys : ∀ q ∈ month_map, q.1.length = 3 ∧ ∀ ch ∈ q.1, isUpperAlpha ch = true := by
      decide
    exact hm ▸ hkeys p hmem

/-- A string containing a digit is not a month key. -/
theorem monthLookup_none_of_digit {m : List Char} {ch : Char} (hch : ch ∈ m)
    (hd : isDigitChar ch = true) : monthLookup m = none := by
  cases h : monthLookup m with
  | none => rfl
  | some x =>
    have hu := (monthLookup_key_upper h).2 ch hch
    rw [not_digit_of_upper hu] at hd
    cases hd

/-- Shared positive case: a well-formed identifier with a two-digit day and
a recognized month code parses to `20YY-MM-DD` — with no validity check
relating the day to the month. -/
theorem extract_expiration_date_two_digit_day (exch asset : List Char)
    (d1 d2 a b c y1 y2 : Char) (mm rest : List Char)
    (hexch : ∀ ch ∈ exch, ch ≠ '-')
    (hassetne : asset ≠ []) (hassetU : ∀ ch ∈ asset, isUpperAlpha ch = true)
    (hd1 : isDigitChar d1 = true) (hd2 : isDigitChar d2 = true)
    (hy1 : isDigitChar y1 = true) (hy2 : isDigitChar y2 = true)
    (hmon : monthLookup [a, b, c] = some mm) :
    extract_expiration_date
        (exch ++ '-' :: (asset ++ '-' :: (d1 :: d2 :: a :: b :: c :: y1 :: y2 :: '-' :: rest)))
      = some (['2', '0', y1, y2] ++ '-' :: (mm ++ '-' :: [d1, d2])) := by
  have habc := (monthLookup_key_upper hmon).2
  have hsearch := reSearchDate_wellformed exch asset [d1, d2] rest hexch hassetne hassetU
    (by simp)
    (by intro ch hch; simp only [List.mem_cons, List.not_mem_nil, or_false] at hch
        rcases hch with rfl | rfl
        · exact hd1
        · exact hd2)
    (habc a (by simp)) (habc b (by simp)) (habc c (by simp)) hy1 hy2
  simp only [List.cons_append, List.nil_append] at hsearch
  rw [extract_expiration_date, hsearch]
  simp only [List.append_eq, List.cons_append, List.nil_append, List.take, List.drop]
  rw [hmon]

/-- **C10**.  The expiry parser performs no calendar-validity check on the
day: for every well-formed identifier whose date token has a two-digit day
and a recognized month code, it returns `20YY-MM-DD` built from the raw
fields, whatever the day digits are.  (Instantiated at `32APR22` by the
witness, yielding the non-date `2022-04-32`.) -/
theorem extract_expiration_no_day_validity_check (exch asset : List Char)
    (d1 d2 a b c y1 y2 : Char) (mm rest : List Char)
    (hexch : ∀ ch ∈ exch, ch ≠ '-')
    (hassetne : asset ≠ []) (hassetU : ∀ ch ∈ asset, isUpperAlpha ch = true)
    (hd1 : isDigitChar d1 = true) (hd2 : isDigitChar d2 = true)
    (hy1 : isDigitChar y1 = true) (hy2 : isDigitChar y2 = true)
    (hmon : monthLookup [a, b, c] = some mm) :
    extract_expiration_date
        (exch ++ '-' :: (asset ++ '-' :: (d1 :: d2 :: a :: b :: c :: y1 :: y2 :: '-' :: rest)))
      = some (['2', '0', y1, y2] ++ '-' :: (mm ++ '-' :: [d1, d2])) :=
  extract_expiration_date_two_digit_day exch asset d1 d2 a b c y1 y2 mm rest
    hexch hassetne hassetU hd1 hd2 hy1 hy2 hmon

/-- **C7** (counterexample).  `deribit-BTC-1APR22-34000-C-option` contains
the hyphen-surrounded token `1APR22`, which matches
`<digits><3 uppercase letters><2 digits>` with one day digit, and its
three-letter month code `APR` is recognized — yet the parser returns
`None`, because the fixed-offset slices read the day as `"1A"` and the
month as `"PR2"`.  This falsifies the claim that any positive number of day
digits yields a date and that `None` occurs only for an unrecognized month
code or an absent pattern. -/
theorem one_digit_day_counterexample :
    "deribit-BTC-1APR22-34000-C-option".toList
      = "deribit-BTC".toList ++ '-' :: ("1APR22".toList ++ '-' :: "34000-C-option".toList)
    ∧ monthLookup ("APR".toList) = some ("04".toList)
    ∧ extract_expiration_date ("deribit-BTC-1APR22-34000-C-option".toList) = none := by
  refine ⟨by decide, by decide, by decide⟩

/-- **C7** (amended).  For a well-formed identifier whose date token is
`<digits><AAA><yy>` with recognized month code: when the day part has
exactly two digits the parser returns the date built from the token's
fields; with any other number of day digits the fixed-offset month slice
picks up a digit, the month lookup fails, and the parser returns `None`. -/
theorem extract_expiration_day_width (exch asset ds : List Char)
    (a b c y1 y2 : Char) (mm rest : List Char)
    (hexch : ∀ ch ∈ exch, ch ≠ '-')
    (hassetne : asset ≠ []) (hassetU : ∀ ch ∈ asset, isUpperAlpha ch = true)
    (hdsne : ds ≠ []) (hds : ∀ ch ∈ ds, isDigitChar ch = true)
    (hy1 : isDigitChar y1 = true) (hy2 : isDigitChar y2 = true)
    (hmon : monthLookup [a, b, c] = some mm) :
    (ds.length = 2 →
      extract_expiration_date
          (exch ++ '-' :: (asset ++ '-' :: (ds ++ a :: b :: c :: y1 :: y2 :: '-' :: rest)))
        = some (['2', '0', y1, y2] ++ '-' :: (mm ++ '-' :: ds)))
    ∧ (ds.length ≠ 2 →
      extract_expiration_date
          (exch ++ '-' :: (asset ++ '-' :: (ds ++ a :: b :: c :: y1 :: y2 :: '-' :: rest)))
        = none) := by
  have habc := (monthLookup_key_upper hmon).2
  constructor
  · intro h2
    obtain ⟨d1, d2, rfl⟩ := List.length_eq_two.mp h2
    have h := extract_expiration_date_two_digit_day exch asset d1 d2 a b c y1 y2 mm rest
      hexch hassetne hassetU (hds d1 (by simp)) (hds d2 (by simp)) hy1 hy2 hmon
    simpa using h
  · intro hne2
    have hsearch := reSearchDate_wellformed exch asset ds rest hexch hassetne hassetU
      hdsne hds (habc a (by simp)) (habc b (by simp)) (habc c (by simp)) hy1 hy2
    rw [extract_expiration_date, hsearch]
    rcases ds with _ | ⟨x1, ds1⟩
    · exact absurd rfl hdsne
    rcases ds1 with _ | ⟨x2, ds2⟩
    · -- one day digit: the month slice is `[b, c, y1]`, and `y1` is a digit
      simp only [List.cons_append, List.nil_append, List.drop, List.take]
      rw [monthLookup_none_of_digit (by simp : y1 ∈ [b, c, y1]) hy1]
    rcases ds2 with _ | ⟨x3, ds3⟩
    · exact absurd rfl hne2
    · -- three or more day digits: the month slice starts with the digit `x3`
      have hx3 := hds x3 (by simp)
      simp only [List.cons_append, List.drop, List.take]
      rw [monthLookup_none_of_digit (List.mem_cons_self x3 _) hx3]

/-- Witness for the amended C7: a two-digit day parses, a three-digit day
with the same recognized month code yields `None`. -/
theorem extract_expiration_day_width_witness :
    extract_expiration_date ("deribit-BTC-24MAY24-70000-P-option".toList)
      = some ("2024-05-24".toList)
    ∧ extract_expiration_date ("deribit-BTC-123MAY24-70000-P-option".toList) = none := by
  constructor
  · have h := (extract_expiration_day_width ("deribit".toList) ("BTC".toList)
      ("24".toList) 'M' 'A' 'Y' '2' '4' ("05".toList) ("70000-P-option".toList)
      (by decide) (by decide) (by decide) (by decide) (by decide) (by decide) (by decide)
      (by decide)).1 (by decide)
    rw [(by decide : "deribit-BTC-24MAY24-70000-P-option".toList
      = "deribit".toList ++ '-' :: ("BTC".toList
          ++ '-' :: ("24".toList ++ 'M' :: 'A' :: 'Y' :: '2' :: '4' :: '-' :: "70000-P-option".toList)))]
    rw [h]
    decide
  · have h := (extract_expiration_day_width ("deribit".toList) ("BTC".toList)
      ("123".toList) 'M' 'A' 'Y' '2' '4' ("05".toList) ("70000-P-option".toList)
      (by decide) (by decide) (by decide) (by decide) (by decide) (by decide) (by decide)
      (by decide)).2 (by decide)
    rw [(by decide : "deribit-BTC-123MAY24-70000-P-option".toList
      = "deribit".toList ++ '-' :: ("BTC".toList
          ++ '-' :: ("123".toList ++ 'M' :: 'A' :: 'Y' :: '2' :: '4' :: '-' :: "70000-P-option".toList)))]
    exact h

/-! ## Absence of the date pattern (C8) -/

/-- Soundness of one attempt: a successful attempt exhibits a date token
followed by a hyphen. -/
theorem matchAfterHyphen_sound {l g : List Char} (h : matchAfterHyphen l = some g) :
    ∃ suf, l = g ++ '-' :: suf ∧ isDateToken g = true := by
  have hsplit := takeWhile_append_drop_self isDigitChar l
  have htwd : ∀ c ∈ l.takeWhile isDigitChar, isDigitChar c = true :=
    fun c hc => mem_takeWhile_digit hc
  simp only [matchAfterHyphen] at h
  rcases htw : l.takeWhile isDigitChar with _ | ⟨x, xs⟩
  · rw [htw] at h
    cases h
  rw [htw] at h hsplit htwd
  rcases hdr : l.drop (x :: xs).length with _ | ⟨A, _ | ⟨B, _ | ⟨C, _ | ⟨D, _ | ⟨E, _ | ⟨F, t⟩⟩⟩⟩⟩⟩ <;>
    rw [hdr] at h hsplit <;>
    try cases h
  replace h : (if (isUpperAlpha A && isUpperAlpha B && isUpperAlpha C &&
      isDigitChar D && isDigitChar E && decide (F = '-')) = true then
        some (x :: xs ++ [A, B, C, D, E]) else none) = some g := h
  split_ifs at h with hcond
  · simp only [Bool.and_eq_true, decide_eq_true_eq] at hcond
    obtain ⟨⟨⟨⟨⟨hA, hB⟩, hC⟩, hD⟩, hE⟩, hF⟩ := hcond
    subst hF
    injection h with hg
    subst hg
    refine ⟨t, ?_, ?_⟩
    · rw [← hsplit]; simp
    · have hlen : ((x :: xs) ++ [A, B, C, D, E]).length - 5 = (x :: xs).length := by
        simp
      unfold isDateToken
      rw [hlen, List.take_left, List.drop_left]
      simp only [Bool.and_eq_true, decide_eq_true_eq, List.all_eq_true]
      refine ⟨⟨by simp, fun c hc => htwd c hc⟩, ?_⟩
      simp [hA, hB, hC, hD, hE]

/-- Soundness of the scan: a successful search exhibits the pattern. -/
theorem reSearchDate_sound : ∀ {l g : List Char},
    reSearchDate l = some g → hasDatePattern l := by
  intro l
  induction l with
  | nil => intro g h; simp [reSearchDate] at h
  | cons x xs ih =>
    intro g h
    by_cases hx : x = '-'
    · subst hx
      rw [reSearchDate, if_pos rfl] at h
      cases hm : matchAfterHyphen xs with
      | some g2 =>
        obtain ⟨suf, hxs, htok⟩ := matchAfterHyphen_sound hm
        exact ⟨[], g2, suf, by rw [hxs]; rfl, htok⟩
      | none =>
        rw [hm] at h
        obtain ⟨pre, grp, suf, heq, htok⟩ := ih h
        exact ⟨'-' :: pre, grp, suf, by rw [heq]; rfl, htok⟩
    · rw [reSearchDate, if_neg hx] at h
      obtain ⟨pre, grp, suf, heq, htok⟩ := ih h
      exact ⟨x :: pre, grp, suf, by rw [heq]; rfl, htok⟩

/-- **C8**.  For every input without a hyphen-surrounded
`<digits><3 uppercase letters><2 digits>` token, the parser returns `None`.
It raises nothing: the embedding is a total function, every failure path
(including the source's swallowed exceptions) producing `none`. -/
theorem extract_expiration_none_without_pattern (market_name : List Char)
    (h : ¬ hasDatePattern market_name) :
    extract_expiration_date market_name = none := by
  unfold extract_expiration_date
  cases hs : reSearchDate market_name with
  | none => rfl
  | some g => exact absurd (reSearchDate_sound hs) h

/-- Witness for C8 at a concrete pattern-free input. -/
theorem extract_expiration_none_without_pattern_witness :
    extract_expiration_date ("hello world".toList) = none := by
  apply extract_expiration_none_without_pattern
  rintro ⟨pre, grp, suf, heq, -⟩
  have hmem : '-' ∈ "hello world".toList := by
    rw [heq]
    exact List.mem_append_right _ (List.mem_cons_self _ _)
  exact absurd hmem (by decide)

/-! ## The expiry grouper (C3) -/

/-- Looking up a key in an association list built by pairing each key with a
value computed from it returns that computed value, for any key present in
the key list. -/
theorem lookup_map_key {β : Type} (f : ℤ → β) (dates : List ℤ) (d : ℤ)
    (hd : d ∈ dates) :
    (dates.map (fun k => (k, f k))).lookup d = some (f d) := by
  induction dates with
  | nil => simp at hd
  | cons k ks ih =>
    by_cases hk : d = k
    · subst hk
      simp [List.lookup]
    · have hmem : d ∈ ks := by
        rcases List.mem_cons.mp hd with h1 | h1
        · exact absurd h1 hk
        · exact h1
      have hbeq : (d == k) = false := by
        simp [hk]
      simp [List.lookup, hbeq, ih hmem]

/-- **C3**.  The grouper partitions exactly the in-range part of the
catalog: (1) the group keys are pairwise distinct, so an entry's calendar
date keys at most one group; (2) every catalog entry whose expiry
timestamp lies in the inclusive range appears in the group keyed by the
calendar date of its expiry; (3) every market in any group comes from an
in-range catalog entry whose calendar date is that group's key — hence
entries outside the range contribute to no group. -/
theorem fetch_markets_by_expiry_date_partition (catalog : List CatalogEntry)
    (s e : ℤ) :
    ((fetch_markets_by_expiry_date catalog s e).map Prod.fst).Nodup
    ∧ (∀ x ∈ catalog, s ≤ x.expiration_date → x.expiration_date ≤ e →
        x.market ∈ (((fetch_markets_by_expiry_date catalog s e).lookup
          (dateOf x.expiration_date)).getD []))
    ∧ (∀ p ∈ fetch_markets_by_expiry_date catalog s e, ∀ m ∈ p.2,
        ∃ x ∈ catalog, x.market = m ∧ s ≤ x.expiration_date ∧ x.expiration_date ≤ e
          ∧ dateOf x.expiration_date = p.1) := by
  refine ⟨?_, ?_, ?_⟩
  · simp only [fetch_markets_by_expiry_date, List.map_map]
    have hid : (Prod.fst ∘ fun d => (d,
        ((catalog.filter (fun x => decide (s ≤ x.expiration_date ∧ x.expiration_date ≤ e))).filter
          (fun x => decide (dateOf x.expiration_date = d))).map (fun x => x.market)))
        = fun d => d := rfl
    rw [hid, List.map_id']
    exact (List.perm_insertionSort _ _).nodup_iff.mpr (List.nodup_dedup _)
  · intro x hx hs he
    have hxF : x ∈ catalog.filter
        (fun x => decide (s ≤ x.expiration_date ∧ x.expiration_date ≤ e)) :=
      List.mem_filter.mpr ⟨hx, by simp [hs, he]⟩
    have hdmem : dateOf x.expiration_date
        ∈ (((catalog.filter
            (fun x => decide (s ≤ x.expiration_date ∧ x.expiration_date ≤ e))).map
              (fun x => dateOf x.expiration_date)).dedup).insertionSort (· ≤ ·) := by
      rw [(List.perm_insertionSort _ _).mem_iff, List.mem_dedup]
      exact List.mem_map.mpr ⟨x, hxF, rfl⟩
    simp only [fetch_markets_by_expiry_date]
    rw [lookup_map_key _ _ _ hdmem]
    simp only [Option.getD_some]
    exact List.mem_map.mpr ⟨x, List.mem_filter.mpr ⟨hxF, by simp⟩, rfl⟩
  · intro p hp m hm
    simp only [fetch_markets_by_expiry_date, List.mem_map] at hp
    obtain ⟨d, hd, rfl⟩ := hp
    obtain ⟨x, hxf, rfl⟩ := List.mem_map.mp hm
    obtain ⟨hxF, hdx⟩ := List.mem_filter.mp hxf
    obtain ⟨hxc, hpred⟩ := List.mem_filter.mp hxF
    simp only [decide_eq_true_eq] at hpred hdx
    exact ⟨x, hxc, rfl, hpred.1, hpred.2, hdx⟩

/-- Witness for C3 at a concrete catalog: the in-range entry `m1`
(timestamp 100, calendar day 0) appears in the group keyed by its calendar
date. -/
theorem fetch_markets_by_expiry_date_partition_witness :
    "m1" ∈ (((fetch_markets_by_expiry_date
        [⟨"m1", 100⟩, ⟨"m2", 10000000⟩] 0 200).lookup (dateOf 100)).getD []) :=
  (fetch_markets_by_expiry_date_partition [⟨"m1", 100⟩, ⟨"m2", 10000000⟩] 0 200).2.1
    ⟨"m1", 100⟩ (by decide) (by decide) (by decide)

/-- Witness for C10: the calendar-invalid token `32APR22` yields
`2022-04-32`. -/
theorem extract_expiration_no_day_validity_check_witness :
    extract_expiration_date ("deribit-BTC-32APR22-34000-C-option".toList)
      = some ("2022-04-32".toList) := by
  have h := extract_expiration_no_day_validity_check ("deribit".toList) ("BTC".toList)
    '3' '2' 'A' 'P' 'R' '2' '2' ("04".toList) ("34000-C-option".toList)
    (by decide) (by decide) (by decide) (by decide) (by decide) (by decide) (by decide)
    (by decide)
  rw [(by decide : "deribit-BTC-32APR22-34000-C-option".toList
    = "deribit".toList ++ '-' :: ("BTC".toList
        ++ '-' :: ('3' :: '2' :: 'A' :: 'P' :: 'R' :: '2' :: '2' :: '-' :: "34000-C-option".toList)))]
  rw [h]
  decide

